import Mathlib

/-!
# DailyTrack — verification of the offline-first sync and local-cache core

Shallow embedding of the core of the repository (src/db.js, src/sync.js,
src/app.js).  Each IndexedDB object store is modelled as a `List Record`
keyed by `id`; timestamps (ISO strings in the source) are modelled as
naturals ordered the same way; the per-store IndexedDB primitives
`store.add` / `store.get` / `store.put` become `addRecord` / `getRecord`
/ `putRecord`.  Asynchronous storage or transport failures that surface
as rejected promises are modelled by explicit `Except` results or by an
injected failure oracle where the surrounding code catches them.
-/

namespace DailyTrack

/-- A generic entity record (task / expense / journal entry …): caller-made
`id`, last-modification stamp `updatedAt`, and `title` standing for the
remaining domain fields. -/
structure Record where
  id : Nat
  updatedAt : Nat
  title : String
deriving DecidableEq, Repr


/-- Embeds `DailyTrackDB.get` (src/db.js:120-129): IndexedDB `store.get`
returns the record stored under the key, if any. -/
def getRecord : List Record → Nat → Option Record
  | [], _ => none
  | x :: s, i => if x.id = i then some x else getRecord s i


/-- Embeds `DailyTrackDB.add` (src/db.js:109-118): IndexedDB `store.add`
rejects with a duplicate-key error when the key already exists, and
appends the record otherwise. -/
def addRecord (s : List Record) (r : Record) : Except String (List Record) :=
  if (getRecord s r.id).isSome then Except.error "DuplicateKey"
  else Except.ok (s ++ [r])


/-- Embeds `DailyTrackDB.update` (src/db.js:143-152): IndexedDB `store.put`
upserts — it replaces the record stored under the key, or appends when the
key is absent. -/
def putRecord (s : List Record) (r : Record) : List Record :=
  if (getRecord s r.id).isSome then
    s.map (fun x => if x.id = r.id then r else x)
  else s ++ [r]


/-- The `id` column of a store. -/
def storeIds (s : List Record) : List Nat := s.map Record.id


/-- Key uniqueness invariant of an IndexedDB object store. -/
def idsNodup (s : List Record) : Prop := (storeIds s).Nodup


-- ## Sync engine: pulling remote changes (src/sync.js)

/-- One iteration of the loop body of `SyncManager.applyRemoteUpdates`
(src/sync.js:164-177): look the incoming record up by id; if present,
replace it only when the incoming `updatedAt` is strictly greater
(`new Date(update.updatedAt) > new Date(existing.updatedAt)`); if absent,
`db.add` it — the key was just found absent, so the add succeeds with the
append (`addRecord_of_absent` below connects this branch to `addRecord`). -/
def applyRemoteUpdate1 (s : List Record) (u : Record) : List Record :=
  match getRecord s u.id with
  | some existing => if existing.updatedAt < u.updatedAt then putRecord s u else s
  | none => s ++ [u]


/-- Embeds `SyncManager.applyRemoteUpdates` (src/sync.js:164-177): the
incoming batch is applied in order, one record at a time.  `dbFail u`
models the IndexedDB request for `u` rejecting (the awaited `db.get` /
`db.update` / `db.add` throwing); a thrown error propagates to the caller
carrying the store as already modified by the earlier iterations. -/
def applyRemoteUpdates (dbFail : Record → Bool) :
    List Record → List Record → Except (List Record) (List Record)
  | s, [] => Except.ok s
  | s, u :: rest =>
    if dbFail u then Except.error s
    else applyRemoteUpdates dbFail (applyRemoteUpdate1 s u) rest


/-- The pure batch application: `applyRemoteUpdates` with no storage
failure injected. -/
def applyBatch (s : List Record) (us : List Record) : List Record :=
  us.foldl applyRemoteUpdate1 s


/-- Store refinement: `t` refines `s` record-wise — every id stored in `s` is still stored in
`t`, with an `updatedAt` at least as new. -/
def recMono (s t : List Record) : Prop :=
  ∀ i r, getRecord s i = some r →
    ∃ r1, getRecord t i = some r1 ∧ r.updatedAt ≤ r1.updatedAt


/-- The store state an `applyRemoteUpdates` run leaves behind, whether it
returned normally or threw partway. -/
def applyOut : Except (List Record) (List Record) → List Record
  | Except.ok t => t
  | Except.error t => t


/-- After applying update `u`, the store holds `u.id` with a stamp at
least `u.updatedAt`. -/
def coversUpdate (s : List Record) (u : Record) : Prop :=
  ∃ r, getRecord s u.id = some r ∧ u.updatedAt ≤ r.updatedAt


-- ## Sync engine: fetchRemoteChanges and the lastSync checkpoint

/-- The state `SyncManager.fetchRemoteChanges` reads and writes: the three
entity stores it pulls (tasks, expenses, journal) and the `lastSync`
checkpoint kept in localStorage. -/
structure SyncState where
  tasks : List Record
  expenses : List Record
  journal : List Record
  lastSync : Nat
deriving DecidableEq, Repr


/-- Payload of `GET /api/sync?since=...`: per-entity-type delta batches. -/
structure RemoteUpdates where
  tasks : List Record
  expenses : List Record
  journal : List Record
deriving DecidableEq, Repr


/-- Embeds `SyncManager.fetchRemoteChanges` (src/sync.js:139-162).
`fetched` is the outcome of the awaited `apiRequest` (a `.error` is the
request throwing); each non-empty batch is applied with
`applyRemoteUpdates`; every exception is caught by the surrounding
`try { ... } catch` — the store keeps whatever was applied before the
throw, and the checkpoint write of `Date.now()` into localStorage (`now` here)
runs only after all three batches were applied without throwing. -/
def fetchRemoteChanges (dbFail : Record → Bool)
    (fetched : Except Unit RemoteUpdates) (now : Nat)
    (st : SyncState) : SyncState :=
  match fetched with
  | Except.error _ => st
  | Except.ok updates =>
    match (if updates.tasks.length > 0 then
        applyRemoteUpdates dbFail st.tasks updates.tasks
      else Except.ok st.tasks) with
    | Except.error t => { st with tasks := t }
    | Except.ok t =>
      match (if updates.expenses.length > 0 then
          applyRemoteUpdates dbFail st.expenses updates.expenses
        else Except.ok st.expenses) with
      | Except.error e => { st with tasks := t, expenses := e }
      | Except.ok e =>
        match (if updates.journal.length > 0 then
            applyRemoteUpdates dbFail st.journal updates.journal
          else Except.ok st.journal) with
        | Except.error j => { st with tasks := t, expenses := e, journal := j }
        | Except.ok j =>
          { st with tasks := t, expenses := e, journal := j, lastSync := now }


/-- Returns `true` on a normal return, `false` when the run threw. -/
def exOk {e a : Type} : Except e a → Bool
  | Except.ok _ => true
  | Except.error _ => false


/-- All three delta batches of a pull apply without throwing. -/
def pullApplyOk (dbFail : Record → Bool) (updates : RemoteUpdates)
    (st : SyncState) : Bool :=
  exOk (applyRemoteUpdates dbFail st.tasks updates.tasks) &&
  exOk (applyRemoteUpdates dbFail st.expenses updates.expenses) &&
  exOk (applyRemoteUpdates dbFail st.journal updates.journal)


-- ## Sync engine: the syncAll cycle (src/sync.js:63-83)

/-- What one call to `SyncManager.syncAll` did: which signals it emitted
and the value of the `isSyncing` flag when it returned, plus the
`SyncState` it left behind. -/
structure SyncAllResult where
  complete : Bool
  error : Bool
  isSyncingAfter : Bool
  st : SyncState
deriving DecidableEq, Repr


/-- Embeds `SyncManager.syncAll` (src/sync.js:63-83).  If `isSyncing` is
already set the call returns at once without touching the flag.
Otherwise the flag is set and the three phases run under
`try { ... } catch { emit syncError } finally { isSyncing = false }`:
`drainThrows` / `pushThrows` say whether an exception escapes
`syncPendingItems` / `syncLocalChanges` (their store effects are not
tracked here); `fetchRemoteChanges` catches internally and never throws,
so the pull phase is called with its real embedding.  The `syncComplete` emit
runs only when no phase threw. -/
def syncAll (isSyncing : Bool) (drainThrows pushThrows : Bool)
    (dbFail : Record → Bool) (fetched : Except Unit RemoteUpdates)
    (now : Nat) (st : SyncState) : SyncAllResult :=
  if isSyncing then
    { complete := false, error := false, isSyncingAfter := isSyncing, st := st }
  else if drainThrows then
    { complete := false, error := true, isSyncingAfter := false, st := st }
  else if pushThrows then
    { complete := false, error := true, isSyncingAfter := false, st := st }
  else
    { complete := true, error := false, isSyncingAfter := false,
      st := fetchRemoteChanges dbFail fetched now st }


-- ## Sync queue (src/db.js:336-359, src/sync.js:85-105)

/-- An entry of the `syncQueue` object store: auto-assigned `id`, entity
`type`, lifecycle `status` (`"pending"` / `"completed"` / `"failed"`),
persisted `attempts` counter, and the `completedAt` stamp written by
`markSyncItemComplete` (absent until then). -/
structure QueueItem where
  id : Nat
  type : String
  status : String
  attempts : Nat
  completedAt : Option Nat
deriving DecidableEq, Repr


/-- Embeds `db.get` on the `syncQueue` store: lookup by id. -/
def getQueueItem : List QueueItem → Nat → Option QueueItem
  | [], _ => none
  | x :: q, i => if x.id = i then some x else getQueueItem q i


/-- Embeds `db.update` on the `syncQueue` store: IndexedDB `store.put`. -/
def putQueueItem (q : List QueueItem) (it : QueueItem) : List QueueItem :=
  if (getQueueItem q it.id).isSome then
    q.map (fun x => if x.id = it.id then it else x)
  else q ++ [it]


/-- Embeds `DailyTrackDB.addToSyncQueue` (src/db.js:337-345): a fresh
entry always starts with status `pending` and `attempts` 0. -/
def addToSyncQueue (q : List QueueItem) (ty : String) (freshId : Nat) :
    List QueueItem :=
  q ++ [{ id := freshId, type := ty, status := "pending", attempts := 0,
          completedAt := none }]


/-- Embeds `DailyTrackDB.getPendingSyncItems` (src/db.js:347-350) with the
`type` filter absent: all queue entries whose status is `pending`. -/
def getPendingSyncItems (q : List QueueItem) : List QueueItem :=
  q.filter (fun it => it.status == "pending")


/-- Embeds `DailyTrackDB.markSyncItemComplete` (src/db.js:352-359): fetch
the entry by id; when absent nothing happens; when present its status
becomes `completed`, a `completedAt` stamp (`now`) is written, and the
entry is stored back. -/
def markSyncItemComplete (q : List QueueItem) (i : Nat) (now : Nat) :
    List QueueItem :=
  match getQueueItem q i with
  | none => q
  | some item =>
      putQueueItem q { item with status := "completed", completedAt := some now }


/-- The entity types `SyncManager.registerSyncHandlers` installs handlers
for (src/sync.js:33-39). -/
def syncHandlerTypes : List String :=
  ["task", "expense", "habit", "journal", "settings"]


/-- Loop body of `SyncManager.syncPendingItems` (src/sync.js:88-104) for
one snapshot item: with no handler for the type nothing happens; with a
handler, `pushOk` says whether the transport call succeeded — on success
the entry is marked complete; on failure the attempts counter of the
*in-memory* copy is bumped (`item.attempts = (item.attempts || 0) + 1`) and the
entry is written back (`db.update`) only when that bumped counter reaches
`maxRetries` (3), with status `failed`.  Below the ceiling the bumped
counter is discarded with the in-memory copy: the store is untouched. -/
def syncPendingItemsStep (pushOk : Nat → Bool) (now : Nat)
    (q : List QueueItem) (item : QueueItem) : List QueueItem :=
  if syncHandlerTypes.contains item.type then
    if pushOk item.id then markSyncItemComplete q item.id now
    else
      let attempts := item.attempts + 1
      if 3 ≤ attempts then
        putQueueItem q { item with attempts := attempts, status := "failed" }
      else q
  else q


/-- Embeds `SyncManager.syncPendingItems` (src/sync.js:85-105): take the
snapshot of pending entries, then run the loop body over it against the
evolving queue store. -/
def syncPendingItems (pushOk : Nat → Bool) (now : Nat)
    (q : List QueueItem) : List QueueItem :=
  (getPendingSyncItems q).foldl (syncPendingItemsStep pushOk now) q


/-- Runs the queue drain of `n` successive periodic sync cycles. -/
def runCycles (pushOk : Nat → Bool) (now : Nat) :
    Nat → List QueueItem → List QueueItem
  | 0, q => q
  | n + 1, q => runCycles pushOk now n (syncPendingItems pushOk now q)


-- ## Habit streaks (src/db.js:298-334)

/-- A habit record: calendar dates (`YYYY-MM-DD` strings in the source)
are modelled as day numbers, consecutive naturals being consecutive
days. -/
structure Habit where
  id : Nat
  currentStreak : Nat
  longestStreak : Nat
  lastCompleted : Option Nat
  completionHistory : List Nat
deriving DecidableEq, Repr


/-- Embeds `DailyTrackDB.logHabitCompletion` (src/db.js:298-334) for an
existing habit.  `realToday` is the wall-clock date; `dateArg` the
optional `date` parameter (`today = date || new Date()...`).  If the
normalized last completion equals `today` the habit is returned untouched
(idempotent per calendar day).  Otherwise the streak check compares the
last completion to *wall-clock yesterday* (`new Date(); setDate(-1)` —
computed from the real clock, not from `date`): on a match the streak is
incremented and `longestStreak` raised to the max, else the streak resets
to 1; a first-ever completion sets both streak fields to 1.  Finally
`lastCompleted` and the history are written and the habit stored back. -/
def logHabitCompletion (realToday : Nat) (dateArg : Option Nat)
    (habit : Habit) : Habit :=
  let today := dateArg.getD realToday
  match habit.lastCompleted with
  | some lastCompletion =>
    if lastCompletion = today then habit
    else
      let yesterday := realToday - 1
      let h :=
        if lastCompletion = yesterday then
          { habit with
              currentStreak := habit.currentStreak + 1,
              longestStreak := max habit.longestStreak (habit.currentStreak + 1) }
        else { habit with currentStreak := 1 }
      { h with lastCompleted := some today,
               completionHistory := h.completionHistory ++ [today] }
  | none =>
    let h := { habit with currentStreak := 1, longestStreak := 1 }
    { h with lastCompleted := some today,
             completionHistory := h.completionHistory ++ [today] }


-- ## Backup export / import (src/db.js:394-433, src/app.js:929-957, src/sync.js:364-374)

/-- The six entity collections covered by backup export and import
(tasks, expenses, habits, journal, settings, analytics — the same list in both
`exportData` and `importData`; the analytics store is keyed by date,
modelled by its `id` field like the others). -/
structure AppData where
  tasks : List Record
  expenses : List Record
  habits : List Record
  journal : List Record
  settings : List Record
  analytics : List Record
deriving DecidableEq, Repr


/-- A backup payload: `data`, `version` and `app` are optional because an
arbitrary offered payload may lack them. -/
structure Backup where
  data : Option AppData
  exportedAt : Nat
  version : Option String
  app : Option String
deriving DecidableEq, Repr


/-- Embeds `DailyTrackDB.exportData` (src/db.js:395-409). -/
def exportData (d : AppData) (now : Nat) : Backup :=
  { data := some d, exportedAt := now, version := some "2.0",
    app := some "DailyTrack" }


/-- Embeds the per-store insert loop of `importData`
(`for (const item of items) await this.add(storeName, item)`); a thrown
duplicate-key error
propagates, carrying the store as filled so far. -/
def addAllRecords : List Record → List Record → Except (String × List Record) (List Record)
  | s, [] => Except.ok s
  | s, r :: rest =>
    match addRecord s r with
    | Except.ok s1 => addAllRecords s1 rest
    | Except.error e => Except.error (e, s)


/-- Embeds `DailyTrackDB.importData` (src/db.js:411-433).  Validation
(`!backupData.data || !backupData.version`) runs before anything is
cleared — on rejection the throw carries the stores untouched (`d`).
Once accepted, every covered collection is cleared and the items of the
backup are re-added store by store in the fixed covered order; an insert
throwing propagates with the partially rebuilt state (earlier stores
filled, later ones still cleared). -/
def importData (b : Backup) (d : AppData) : Except (String × AppData) AppData :=
  match b.data, b.version with
  | some bd, some _ =>
    match addAllRecords [] bd.tasks with
    | Except.error (e, t) => Except.error (e, ⟨t, [], [], [], [], []⟩)
    | Except.ok t =>
    match addAllRecords [] bd.expenses with
    | Except.error (e, x) => Except.error (e, ⟨t, x, [], [], [], []⟩)
    | Except.ok x =>
    match addAllRecords [] bd.habits with
    | Except.error (e, hb) => Except.error (e, ⟨t, x, hb, [], [], []⟩)
    | Except.ok hb =>
    match addAllRecords [] bd.journal with
    | Except.error (e, j) => Except.error (e, ⟨t, x, hb, j, [], []⟩)
    | Except.ok j =>
    match addAllRecords [] bd.settings with
    | Except.error (e, g) => Except.error (e, ⟨t, x, hb, j, g, []⟩)
    | Except.ok g =>
    match addAllRecords [] bd.analytics with
    | Except.error (e, a) => Except.error (e, ⟨t, x, hb, j, g, a⟩)
    | Except.ok a => Except.ok ⟨t, x, hb, j, g, a⟩
  | _, _ => Except.error ("Invalid backup data", d)


/-- Embeds `DailyTrackApp.validateBackup` (src/app.js:952-957):
`backup && backup.data && backup.version` and a strict equality of
`backup.app` with the literal app name `DailyTrack`. -/
def validateBackup (backup : Option Backup) : Bool :=
  match backup with
  | none => false
  | some b => b.data.isSome && b.version.isSome && (b.app == some "DailyTrack")


/-- Embeds `SyncManager.restoreFromCloud` (src/sync.js:364-374): the
fetched payload is handed to `db.importData` directly — `validateBackup`
is not on this path; any throw is caught and `false` returned. -/
def restoreFromCloud (fetched : Except Unit Backup) (d : AppData) :
    Bool × AppData :=
  match fetched with
  | Except.error _ => (false, d)
  | Except.ok b =>
    match importData b d with
    | Except.ok d1 => (true, d1)
    | Except.error (_, d1) => (false, d1)


/-- Every covered collection of `d` satisfies the store key-uniqueness
invariant. -/
def appDataNodup (d : AppData) : Prop :=
  idsNodup d.tasks ∧ idsNodup d.expenses ∧ idsNodup d.habits ∧
  idsNodup d.journal ∧ idsNodup d.settings ∧ idsNodup d.analytics


instance : DecidablePred idsNodup := fun s =>
  inferInstanceAs (Decidable (storeIds s).Nodup)


instance (d : AppData) : Decidable (appDataNodup d) :=
  inferInstanceAs (Decidable (_ ∧ _ ∧ _ ∧ _ ∧ _ ∧ _))


-- ## App-layer write path and concrete fixtures

/-- Embeds the store write of `DailyTrackApp.saveTask` /
`toggleTaskCompletion` (src/app.js:724-737, 750-757): the `updatedAt`
of the record is stamped with the current time (`now`) just before
`db.update`. -/
def saveTaskWrite (s : List Record) (t : Record) (now : Nat) : List Record :=
  putRecord s { t with updatedAt := now }


/-- A freshly enqueued sync-queue entry, exactly as `addToSyncQueue`
creates it (src/db.js:337-345): pending, zero attempts. -/
def stuckItem : QueueItem :=
  { id := 1, type := "task", status := "pending", attempts := 0,
    completedAt := none }


/-- A concrete sync state with an out-of-date checkpoint. -/
def stEx : SyncState := { tasks := [], expenses := [], journal := [], lastSync := 0 }


/-- The empty local store. -/
def emptyAppData : AppData := ⟨[], [], [], [], [], []⟩


/-- A structurally valid backup payload whose `app` field names a
different application. -/
def mismatchedBackup : Backup :=
  { data := some emptyAppData, exportedAt := 0, version := some "2.0",
    app := some "SomeOtherApp" }


-- ## Lemmas and claim theorems

-- ## Basic lemmas about the store primitives

theorem getRecord_nil (i : Nat) : getRecord [] i = none := rfl


theorem getRecord_cons (x : Record) (s : List Record) (i : Nat) :
    getRecord (x :: s) i = if x.id = i then some x else getRecord s i := rfl


theorem getRecord_some_id {s : List Record} {i : Nat} {r : Record}
    (h : getRecord s i = some r) : r.id = i := by
  induction s with
  | nil => simp [getRecord_nil] at h
  | cons x xs ih =>
    rw [getRecord_cons] at h
    by_cases hx : x.id = i
    · rw [if_pos hx] at h
      cases h
      exact hx
    · rw [if_neg hx] at h
      exact ih h


theorem getRecord_isSome_iff (s : List Record) (i : Nat) :
    (getRecord s i).isSome ↔ i ∈ storeIds s := by
  induction s with
  | nil => simp [getRecord_nil, storeIds]
  | cons x t ih =>
    rw [getRecord_cons]
    by_cases h : x.id = i
    · simp [h, storeIds]
    · rw [if_neg h, ih]
      simp only [storeIds, List.map_cons, List.mem_cons]
      constructor
      · intro hm
        exact Or.inr hm
      · rintro (hm | hm)
        · exact absurd hm.symm h
        · exact hm


theorem getRecord_append_left {s : List Record} {i : Nat} {r : Record}
    (h : getRecord s i = some r) (t : List Record) :
    getRecord (s ++ t) i = some r := by
  induction s with
  | nil => simp [getRecord_nil] at h
  | cons x xs ih =>
    rw [getRecord_cons] at h
    rw [List.cons_append, getRecord_cons]
    by_cases hx : x.id = i
    · rw [if_pos hx] at h ⊢
      exact h
    · rw [if_neg hx] at h ⊢
      exact ih h


theorem getRecord_append_none {s : List Record} {i : Nat}
    (h : getRecord s i = none) (t : List Record) :
    getRecord (s ++ t) i = getRecord t i := by
  induction s with
  | nil => simp
  | cons x xs ih =>
    rw [getRecord_cons] at h
    rw [List.cons_append, getRecord_cons]
    by_cases hx : x.id = i
    · rw [if_pos hx] at h
      cases h
    · rw [if_neg hx] at h ⊢
      exact ih h


theorem getRecord_singleton (r : Record) (i : Nat) :
    getRecord [r] i = if r.id = i then some r else none := rfl


/-- Looking up the replaced key after the map-based replace of `putRecord`. -/
theorem getRecord_replace_self {s : List Record} {r : Record}
    (h : (getRecord s r.id).isSome) :
    getRecord (s.map (fun x => if x.id = r.id then r else x)) r.id = some r := by
  induction s with
  | nil => simp [getRecord_nil] at h
  | cons x xs ih =>
    rw [getRecord_cons] at h
    by_cases hx : x.id = r.id
    · simp only [List.map_cons, if_pos hx]
      rw [getRecord_cons, if_pos rfl]
    · simp only [List.map_cons, if_neg hx]
      rw [getRecord_cons, if_neg hx]
      rw [if_neg hx] at h
      exact ih h


/-- Looking up a different key after the map-based replace of `putRecord`. -/
theorem getRecord_replace_ne (s : List Record) (r : Record) {i : Nat}
    (hne : i ≠ r.id) :
    getRecord (s.map (fun x => if x.id = r.id then r else x)) i = getRecord s i := by
  induction s with
  | nil => simp
  | cons x xs ih =>
    by_cases hx : x.id = r.id
    · simp only [List.map_cons, if_pos hx]
      rw [getRecord_cons, getRecord_cons, if_neg (fun hh => hne hh.symm),
        if_neg (fun hh : x.id = i => hne (hx ▸ hh.symm))]
      exact ih
    · simp only [List.map_cons, if_neg hx]
      rw [getRecord_cons, getRecord_cons]
      by_cases hxi : x.id = i
      · rw [if_pos hxi, if_pos hxi]
      · rw [if_neg hxi, if_neg hxi]
        exact ih


theorem getRecord_putRecord_self (s : List Record) (r : Record) :
    getRecord (putRecord s r) r.id = some r := by
  unfold putRecord
  by_cases h : (getRecord s r.id).isSome
  · rw [if_pos h]
    exact getRecord_replace_self h
  · rw [if_neg h]
    rw [Option.not_isSome_iff_eq_none] at h
    rw [getRecord_append_none h, getRecord_singleton, if_pos rfl]


theorem getRecord_putRecord_ne (s : List Record) (r : Record) {i : Nat}
    (hne : i ≠ r.id) :
    getRecord (putRecord s r) i = getRecord s i := by
  unfold putRecord
  by_cases h : (getRecord s r.id).isSome
  · rw [if_pos h]
    exact getRecord_replace_ne s r hne
  · rw [if_neg h]
    cases hg : getRecord s i with
    | some x => exact getRecord_append_left hg [r]
    | none =>
      rw [getRecord_append_none hg, getRecord_singleton,
        if_neg (fun hh => hne hh.symm)]


theorem addRecord_of_absent {s : List Record} {r : Record}
    (h : getRecord s r.id = none) : addRecord s r = Except.ok (s ++ [r]) := by
  unfold addRecord
  rw [h]
  rfl


theorem addRecord_duplicate {s : List Record} {r : Record}
    (h : (getRecord s r.id).isSome) : addRecord s r = Except.error "DuplicateKey" := by
  unfold addRecord
  rw [if_pos h]


theorem applyRemoteUpdate1_some {s : List Record} {u existing : Record}
    (hg : getRecord s u.id = some existing) :
    applyRemoteUpdate1 s u =
      if existing.updatedAt < u.updatedAt then putRecord s u else s := by
  unfold applyRemoteUpdate1
  rw [hg]


theorem applyRemoteUpdate1_none {s : List Record} {u : Record}
    (hg : getRecord s u.id = none) :
    applyRemoteUpdate1 s u = s ++ [u] := by
  unfold applyRemoteUpdate1
  rw [hg]


theorem applyRemoteUpdate1_absent_eq_addRecord {s : List Record} {u : Record}
    (h : getRecord s u.id = none) :
    Except.ok (applyRemoteUpdate1 s u) = addRecord s u := by
  rw [addRecord_of_absent h, applyRemoteUpdate1_none h]


theorem applyRemoteUpdates_noFail (s us : List Record) :
    applyRemoteUpdates (fun _ => false) s us = Except.ok (applyBatch s us) := by
  induction us generalizing s with
  | nil => rfl
  | cons u rest ih =>
    rw [applyRemoteUpdates, if_neg (by simp)]
    rw [ih]
    rfl


theorem recMono_refl (s : List Record) : recMono s s :=
  fun _ r h => ⟨r, h, le_refl _⟩


theorem recMono_trans {s t v : List Record} (h1 : recMono s t)
    (h2 : recMono t v) : recMono s v := by
  intro i r h
  obtain ⟨r1, hg1, hle1⟩ := h1 i r h
  obtain ⟨r2, hg2, hle2⟩ := h2 i r1 hg1
  exact ⟨r2, hg2, le_trans hle1 hle2⟩


theorem recMono_applyRemoteUpdate1 (s : List Record) (u : Record) :
    recMono s (applyRemoteUpdate1 s u) := by
  intro i r h
  cases hg : getRecord s u.id with
  | some existing =>
    rw [applyRemoteUpdate1_some hg]
    by_cases hlt : existing.updatedAt < u.updatedAt
    · rw [if_pos hlt]
      by_cases hi : i = u.id
      · subst hi
        rw [h] at hg
        cases hg
        exact ⟨u, getRecord_putRecord_self s u, le_of_lt hlt⟩
      · exact ⟨r, by rw [getRecord_putRecord_ne s u hi]; exact h, le_refl _⟩
    · rw [if_neg hlt]
      exact ⟨r, h, le_refl _⟩
  | none =>
    rw [applyRemoteUpdate1_none hg]
    exact ⟨r, getRecord_append_left h [u], le_refl _⟩


theorem recMono_applyBatch (s us : List Record) :
    recMono s (applyBatch s us) := by
  induction us generalizing s with
  | nil => exact recMono_refl s
  | cons u rest ih =>
    exact recMono_trans (recMono_applyRemoteUpdate1 s u)
      (ih (applyRemoteUpdate1 s u))


theorem recMono_applyRemoteUpdates (dbFail : Record → Bool) (s us : List Record) :
    recMono s (applyOut (applyRemoteUpdates dbFail s us)) := by
  induction us generalizing s with
  | nil => exact recMono_refl s
  | cons u rest ih =>
    rw [applyRemoteUpdates]
    by_cases hf : dbFail u
    · rw [if_pos hf]
      exact recMono_refl s
    · rw [if_neg hf]
      exact recMono_trans (recMono_applyRemoteUpdate1 s u)
        (ih (applyRemoteUpdate1 s u))


theorem coversUpdate_of_recMono {s t : List Record} {u : Record}
    (hc : coversUpdate s u) (hm : recMono s t) : coversUpdate t u := by
  obtain ⟨r, hg, hle⟩ := hc
  obtain ⟨r1, hg1, hle1⟩ := hm u.id r hg
  exact ⟨r1, hg1, le_trans hle hle1⟩


theorem coversUpdate_applyRemoteUpdate1 (s : List Record) (u : Record) :
    coversUpdate (applyRemoteUpdate1 s u) u := by
  cases hg : getRecord s u.id with
  | some existing =>
    rw [applyRemoteUpdate1_some hg]
    by_cases hlt : existing.updatedAt < u.updatedAt
    · rw [if_pos hlt]
      exact ⟨u, getRecord_putRecord_self s u, le_refl _⟩
    · rw [if_neg hlt]
      exact ⟨existing, hg, le_of_not_lt hlt⟩
  | none =>
    rw [applyRemoteUpdate1_none hg]
    refine ⟨u, ?_, le_refl _⟩
    rw [getRecord_append_none hg, getRecord_singleton, if_pos rfl]


/-- A covered update is discarded: the strictly-greater test fails, the
store is returned untouched (the "local wins" branch). -/
theorem applyRemoteUpdate1_of_covered {s : List Record} {u : Record}
    (hc : coversUpdate s u) : applyRemoteUpdate1 s u = s := by
  obtain ⟨r, hg, hle⟩ := hc
  rw [applyRemoteUpdate1_some hg, if_neg (not_lt_of_le hle)]


theorem coversUpdate_all_applyBatch (s : List Record) (us : List Record) :
    ∀ u ∈ us, coversUpdate (applyBatch s us) u := by
  induction us generalizing s with
  | nil => intro u hu; cases hu
  | cons v rest ih =>
    intro u hu
    rcases List.mem_cons.mp hu with hu | hu
    · subst hu
      exact coversUpdate_of_recMono
        (coversUpdate_applyRemoteUpdate1 s u)
        (recMono_applyBatch (applyRemoteUpdate1 s u) rest)
    · exact ih (applyRemoteUpdate1 s v) u hu


theorem applyBatch_of_all_covered {s : List Record} {us : List Record}
    (h : ∀ u ∈ us, coversUpdate s u) : applyBatch s us = s := by
  induction us with
  | nil => rfl
  | cons v rest ih =>
    have hv : applyRemoteUpdate1 s v = s :=
      applyRemoteUpdate1_of_covered (h v (List.mem_cons_self v rest))
    show applyBatch (applyRemoteUpdate1 s v) rest = s
    rw [hv]
    exact ih (fun u hu => h u (List.mem_cons_of_mem v hu))


/-- Re-applying a batch is a no-op on the store. -/
theorem applyBatch_idem (s : List Record) (us : List Record) :
    applyBatch (applyBatch s us) us = applyBatch s us :=
  applyBatch_of_all_covered (coversUpdate_all_applyBatch s us)


/-- The `if batch non-empty` guard in `fetchRemoteChanges` is semantically
inert: applying the empty batch returns the store unchanged. -/
theorem lengthGuard_apply (dbFail : Record → Bool) (s us : List Record) :
    (if us.length > 0 then applyRemoteUpdates dbFail s us else Except.ok s) =
      applyRemoteUpdates dbFail s us := by
  cases us with
  | nil => rfl
  | cons u rest => rw [if_pos (by simp)]


-- Queue-store lookup lemmas (mirrors of the `Record` store lemmas)

theorem getQueueItem_cons (x : QueueItem) (q : List QueueItem) (i : Nat) :
    getQueueItem (x :: q) i = if x.id = i then some x else getQueueItem q i := rfl


theorem getQueueItem_some_id {q : List QueueItem} {i : Nat} {it : QueueItem}
    (h : getQueueItem q i = some it) : it.id = i := by
  induction q with
  | nil => simp [getQueueItem] at h
  | cons x xs ih =>
    rw [getQueueItem_cons] at h
    by_cases hx : x.id = i
    · rw [if_pos hx] at h
      cases h
      exact hx
    · rw [if_neg hx] at h
      exact ih h


theorem getQueueItem_append_left {q : List QueueItem} {i : Nat} {it : QueueItem}
    (h : getQueueItem q i = some it) (t : List QueueItem) :
    getQueueItem (q ++ t) i = some it := by
  induction q with
  | nil => simp [getQueueItem] at h
  | cons x xs ih =>
    rw [getQueueItem_cons] at h
    rw [List.cons_append, getQueueItem_cons]
    by_cases hx : x.id = i
    · rw [if_pos hx] at h ⊢
      exact h
    · rw [if_neg hx] at h ⊢
      exact ih h


theorem getQueueItem_append_none {q : List QueueItem} {i : Nat}
    (h : getQueueItem q i = none) (t : List QueueItem) :
    getQueueItem (q ++ t) i = getQueueItem t i := by
  induction q with
  | nil => simp
  | cons x xs ih =>
    rw [getQueueItem_cons] at h
    rw [List.cons_append, getQueueItem_cons]
    by_cases hx : x.id = i
    · rw [if_pos hx] at h
      cases h
    · rw [if_neg hx] at h ⊢
      exact ih h


theorem getQueueItem_replace_self {q : List QueueItem} {it : QueueItem}
    (h : (getQueueItem q it.id).isSome) :
    getQueueItem (q.map (fun x => if x.id = it.id then it else x)) it.id = some it := by
  induction q with
  | nil => simp [getQueueItem] at h
  | cons x xs ih =>
    rw [getQueueItem_cons] at h
    by_cases hx : x.id = it.id
    · simp only [List.map_cons, if_pos hx]
      rw [getQueueItem_cons, if_pos rfl]
    · simp only [List.map_cons, if_neg hx]
      rw [getQueueItem_cons, if_neg hx]
      rw [if_neg hx] at h
      exact ih h


theorem getQueueItem_replace_ne (q : List QueueItem) (it : QueueItem) {i : Nat}
    (hne : i ≠ it.id) :
    getQueueItem (q.map (fun x => if x.id = it.id then it else x)) i =
      getQueueItem q i := by
  induction q with
  | nil => simp [getQueueItem]
  | cons x xs ih =>
    by_cases hx : x.id = it.id
    · simp only [List.map_cons, if_pos hx]
      rw [getQueueItem_cons, getQueueItem_cons, if_neg (fun hh => hne hh.symm),
        if_neg (fun hh : x.id = i => hne (hx ▸ hh.symm))]
      exact ih
    · simp only [List.map_cons, if_neg hx]
      rw [getQueueItem_cons, getQueueItem_cons]
      by_cases hxi : x.id = i
      · rw [if_pos hxi, if_pos hxi]
      · rw [if_neg hxi, if_neg hxi]
        exact ih


theorem getQueueItem_putQueueItem_self (q : List QueueItem) (it : QueueItem) :
    getQueueItem (putQueueItem q it) it.id = some it := by
  unfold putQueueItem
  by_cases h : (getQueueItem q it.id).isSome
  · rw [if_pos h]
    exact getQueueItem_replace_self h
  · rw [if_neg h]
    rw [Option.not_isSome_iff_eq_none] at h
    rw [getQueueItem_append_none h, getQueueItem_cons, if_pos rfl]


theorem getQueueItem_putQueueItem_ne (q : List QueueItem) (it : QueueItem)
    {i : Nat} (hne : i ≠ it.id) :
    getQueueItem (putQueueItem q it) i = getQueueItem q i := by
  unfold putQueueItem
  by_cases h : (getQueueItem q it.id).isSome
  · rw [if_pos h]
    exact getQueueItem_replace_ne q it hne
  · rw [if_neg h]
    cases hg : getQueueItem q i with
    | some x => exact getQueueItem_append_left hg [it]
    | none =>
      rw [getQueueItem_append_none hg, getQueueItem_cons,
        if_neg (fun hh => hne hh.symm)]
      rfl


/-- Re-inserting a duplicate-free record list into a cleared store
reproduces it exactly. -/
theorem addAllRecords_of_nodup :
    ∀ (s acc : List Record), (storeIds (acc ++ s)).Nodup →
      addAllRecords acc s = Except.ok (acc ++ s) := by
  intro s
  induction s with
  | nil =>
    intro acc _
    simp [addAllRecords]
  | cons r rest ih =>
    intro acc hnd
    have hdisj : (List.map Record.id acc).Disjoint (List.map Record.id (r :: rest)) := by
      have h1 := hnd
      simp only [storeIds, List.map_append] at h1
      exact (List.nodup_append.mp h1).2.2
    have habs : getRecord acc r.id = none := by
      rw [← Option.not_isSome_iff_eq_none]
      intro hsome
      rw [getRecord_isSome_iff] at hsome
      simp only [storeIds] at hsome
      exact hdisj hsome (by simp)
    have hnd1 : (storeIds ((acc ++ [r]) ++ rest)).Nodup := by
      have hperm : (acc ++ [r]) ++ rest = acc ++ r :: rest := by simp
      rw [hperm]
      exact hnd
    show (match addRecord acc r with
      | Except.ok s1 => addAllRecords s1 rest
      | Except.error e => Except.error (e, acc)) = Except.ok (acc ++ r :: rest)
    rw [addRecord_of_absent habs]
    show addAllRecords (acc ++ [r]) rest = Except.ok (acc ++ r :: rest)
    rw [ih (acc ++ [r]) hnd1]
    congr 1
    simp


-- ## Claim theorems

/-- C3: for every incoming remote record with an id already present
locally, `applyRemoteUpdates` stores the incoming record iff its
`updatedAt` is strictly greater than the local one; on `updatedAt` less
than or equal the local store is returned untouched; an id absent locally
is inserted. -/
theorem applyRemoteUpdates_lastWriterWins (s : List Record) (u existing : Record) :
    (getRecord s u.id = some existing →
      (existing.updatedAt < u.updatedAt →
        applyRemoteUpdates (fun _ => false) s [u] = Except.ok (putRecord s u) ∧
        getRecord (putRecord s u) u.id = some u) ∧
      (u.updatedAt ≤ existing.updatedAt →
        applyRemoteUpdates (fun _ => false) s [u] = Except.ok s)) ∧
    (getRecord s u.id = none →
      applyRemoteUpdates (fun _ => false) s [u] = Except.ok (s ++ [u]) ∧
      getRecord (s ++ [u]) u.id = some u) := by
  have hrun : applyRemoteUpdates (fun _ => false) s [u] =
      Except.ok (applyRemoteUpdate1 s u) := applyRemoteUpdates_noFail s [u]
  constructor
  · intro hg
    constructor
    · intro hlt
      refine ⟨?_, getRecord_putRecord_self s u⟩
      rw [hrun, applyRemoteUpdate1_some hg, if_pos hlt]
    · intro hle
      rw [hrun, applyRemoteUpdate1_some hg, if_neg (not_lt_of_le hle)]
  · intro hg
    refine ⟨?_, ?_⟩
    · rw [hrun, applyRemoteUpdate1_none hg]
    · rw [getRecord_append_none hg, getRecord_singleton, if_pos rfl]


/-- Witness for C3: the three branches at concrete stores. -/
theorem applyRemoteUpdates_lastWriterWins_witness :
    applyRemoteUpdates (fun _ => false) [⟨1, 5, "local"⟩] [⟨1, 7, "remote"⟩] =
      Except.ok (putRecord [⟨1, 5, "local"⟩] ⟨1, 7, "remote"⟩) ∧
    applyRemoteUpdates (fun _ => false) [⟨1, 5, "local"⟩] [⟨1, 4, "older"⟩] =
      Except.ok [⟨1, 5, "local"⟩] ∧
    applyRemoteUpdates (fun _ => false) [⟨1, 5, "local"⟩] [⟨2, 9, "new"⟩] =
      Except.ok ([⟨1, 5, "local"⟩] ++ [⟨2, 9, "new"⟩]) :=
  ⟨(((applyRemoteUpdates_lastWriterWins [⟨1, 5, "local"⟩] ⟨1, 7, "remote"⟩
      ⟨1, 5, "local"⟩).1 rfl).1 (by decide)).1,
   ((applyRemoteUpdates_lastWriterWins [⟨1, 5, "local"⟩] ⟨1, 4, "older"⟩
      ⟨1, 5, "local"⟩).1 rfl).2 (by decide),
   ((applyRemoteUpdates_lastWriterWins [⟨1, 5, "local"⟩] ⟨2, 9, "new"⟩
      ⟨1, 5, "local"⟩).2 rfl).1⟩


/-- C4: applying the same remote delta batch a second time leaves the
local store state identical to applying it once. -/
theorem applyRemoteUpdates_idempotent (s s1 us : List Record)
    (h : applyRemoteUpdates (fun _ => false) s us = Except.ok s1) :
    applyRemoteUpdates (fun _ => false) s1 us = Except.ok s1 := by
  rw [applyRemoteUpdates_noFail] at h
  injection h with h1
  subst h1
  rw [applyRemoteUpdates_noFail, applyBatch_idem]


/-- Witness for C4: re-applying a concrete two-record batch (with an
internal conflict) is a no-op. -/
theorem applyRemoteUpdates_idempotent_witness :
    applyRemoteUpdates (fun _ => false) [⟨1, 5, "A"⟩] [⟨1, 5, "A"⟩, ⟨1, 3, "B"⟩] =
      Except.ok [⟨1, 5, "A"⟩] :=
  applyRemoteUpdates_idempotent [] [⟨1, 5, "A"⟩] [⟨1, 5, "A"⟩, ⟨1, 3, "B"⟩] rfl


/-- C2: a pull whose fetch or whose application of any entity-type batch
throws leaves the `lastSync` checkpoint unchanged; the checkpoint is
advanced exactly when all three batches apply without throwing. -/
theorem fetchRemoteChanges_checkpoint (dbFail : Record → Bool)
    (updates : RemoteUpdates) (now : Nat) (st : SyncState) :
    (fetchRemoteChanges dbFail (Except.error ()) now st).lastSync = st.lastSync ∧
    (fetchRemoteChanges dbFail (Except.ok updates) now st).lastSync =
      (if pullApplyOk dbFail updates st then now else st.lastSync) := by
  constructor
  · rfl
  · show (match (if updates.tasks.length > 0 then
          applyRemoteUpdates dbFail st.tasks updates.tasks
        else Except.ok st.tasks) with
      | Except.error t => { st with tasks := t }
      | Except.ok t =>
        match (if updates.expenses.length > 0 then
            applyRemoteUpdates dbFail st.expenses updates.expenses
          else Except.ok st.expenses) with
        | Except.error e => { st with tasks := t, expenses := e }
        | Except.ok e =>
          match (if updates.journal.length > 0 then
              applyRemoteUpdates dbFail st.journal updates.journal
            else Except.ok st.journal) with
          | Except.error j => { st with tasks := t, expenses := e, journal := j }
          | Except.ok j =>
            { st with tasks := t, expenses := e, journal := j,
                      lastSync := now }).lastSync =
      (if pullApplyOk dbFail updates st then now else st.lastSync)
    rw [lengthGuard_apply, lengthGuard_apply, lengthGuard_apply]
    unfold pullApplyOk
    cases h1 : applyRemoteUpdates dbFail st.tasks updates.tasks with
    | error t => simp [exOk]
    | ok t =>
      cases h2 : applyRemoteUpdates dbFail st.expenses updates.expenses with
      | error e => simp [exOk]
      | ok e =>
        cases h3 : applyRemoteUpdates dbFail st.journal updates.journal with
        | error j => simp [exOk]
        | ok j => simp [exOk]


/-- C8 counterexample: a cycle whose pull phase fails (the sync request
throws, so the checkpoint stays at 0 instead of advancing to 7) still
emits `syncComplete` and no `syncError`, because `fetchRemoteChanges`
catches its own exceptions — refuting the claim that a cycle with a
failing pull phase does not emit `syncComplete`. -/
theorem syncAll_pull_failure_emits_complete :
    (syncAll false false false (fun _ => false) (Except.error ()) 7 stEx).complete
      = true ∧
    (syncAll false false false (fun _ => false) (Except.error ()) 7 stEx).error
      = false ∧
    (syncAll false false false (fun _ => false) (Except.error ()) 7 stEx).st.lastSync
      = stEx.lastSync ∧
    stEx.lastSync ≠ 7 :=
  ⟨rfl, rfl, rfl, by decide⟩


/-- C8 amended: a cycle that acquires the in-flight flag releases it on
every exit path; it emits `syncComplete` iff neither the queue-drain
phase nor the local-push phase throws — a pull-phase failure is caught
inside `fetchRemoteChanges` and does not suppress `syncComplete` — and
emits `syncError` iff one of those two phases throws; a call arriving
while a cycle is in flight is dropped without touching the flag or
emitting anything. -/
theorem syncAll_flag_and_signals (drainThrows pushThrows : Bool)
    (dbFail : Record → Bool) (fetched : Except Unit RemoteUpdates)
    (now : Nat) (st : SyncState) :
    (syncAll false drainThrows pushThrows dbFail fetched now st).isSyncingAfter
      = false ∧
    (syncAll false drainThrows pushThrows dbFail fetched now st).complete
      = (!drainThrows && !pushThrows) ∧
    (syncAll false drainThrows pushThrows dbFail fetched now st).error
      = (drainThrows || pushThrows) ∧
    syncAll true drainThrows pushThrows dbFail fetched now st =
      { complete := false, error := false, isSyncingAfter := true, st := st } := by
  cases drainThrows <;> cases pushThrows <;> exact ⟨rfl, rfl, rfl, rfl⟩


/-- C1: a freshly enqueued entry (status `pending`, `attempts` 0, as
`addToSyncQueue` always creates them) whose handler push fails on every
cycle is returned by every number of sync cycles byte-for-byte unchanged:
the attempts bump of the failed push is discarded with the in-memory copy
(`db.update` runs only when the bumped counter already reaches 3), so the
persisted `attempts` stays 0, the entry never transitions to `failed`,
and it is retried forever. -/
theorem retry_ceiling_never_reached (n : Nat) :
    runCycles (fun _ => false) 5 n [stuckItem] = [stuckItem] := by
  induction n with
  | zero => rfl
  | succ k ih =>
    have h1 : syncPendingItems (fun _ => false) 5 [stuckItem] = [stuckItem] := by
      decide
    show runCycles (fun _ => false) 5 k
      (syncPendingItems (fun _ => false) 5 [stuckItem]) = [stuckItem]
    rw [h1]
    exact ih


/-- C10: `markSyncItemComplete` with an id matching no queue entry leaves
the queue unchanged and does not throw; with a matching id, that entry
gets status `completed` and a `completedAt` stamp while every other
entry is unchanged. -/
theorem markSyncItemComplete_frame (q : List QueueItem) (i now : Nat) :
    (getQueueItem q i = none → markSyncItemComplete q i now = q) ∧
    (∀ item, getQueueItem q i = some item →
      getQueueItem (markSyncItemComplete q i now) i =
        some { item with status := "completed", completedAt := some now } ∧
      ∀ j, j ≠ i → getQueueItem (markSyncItemComplete q i now) j =
        getQueueItem q j) := by
  constructor
  · intro h
    unfold markSyncItemComplete
    rw [h]
  · intro item h
    have hid : item.id = i := getQueueItem_some_id h
    have hred : markSyncItemComplete q i now =
        putQueueItem q { item with status := "completed", completedAt := some now } := by
      unfold markSyncItemComplete
      rw [h]
    constructor
    · rw [hred, ← hid]
      exact getQueueItem_putQueueItem_self q
        { item with status := "completed", completedAt := some now }
    · intro j hj
      rw [hred]
      exact getQueueItem_putQueueItem_ne q _ (fun hh => hj (hid ▸ hh))


/-- Witness for C10: a two-entry queue; a miss (id 9) is a no-op, a hit
(id 1) completes exactly that entry and leaves entry 2 alone. -/
theorem markSyncItemComplete_frame_witness :
    markSyncItemComplete [stuckItem, ⟨2, "expense", "pending", 1, none⟩] 9 5 =
      [stuckItem, ⟨2, "expense", "pending", 1, none⟩] ∧
    getQueueItem
      (markSyncItemComplete [stuckItem, ⟨2, "expense", "pending", 1, none⟩] 1 5) 1 =
      some ⟨1, "task", "completed", 0, some 5⟩ ∧
    getQueueItem
      (markSyncItemComplete [stuckItem, ⟨2, "expense", "pending", 1, none⟩] 1 5) 2 =
      getQueueItem [stuckItem, ⟨2, "expense", "pending", 1, none⟩] 2 :=
  ⟨(markSyncItemComplete_frame [stuckItem, ⟨2, "expense", "pending", 1, none⟩] 9 5).1
      (by decide),
   ((markSyncItemComplete_frame [stuckItem, ⟨2, "expense", "pending", 1, none⟩] 1 5).2
      stuckItem (by decide)).1,
   ((markSyncItemComplete_frame [stuckItem, ⟨2, "expense", "pending", 1, none⟩] 1 5).2
      stuckItem (by decide)).2 2 (by decide)⟩


/-- C5: logging a habit completion is idempotent per calendar day;
completing with the last completion exactly yesterday continues the
streak (raising
`longestStreak` to the max), a gap of two or more days or a first-ever
completion resets `currentStreak` to 1, and three consecutive days from a
fresh habit yield `currentStreak = 3`.  Logging "on day X" means the call
happens with wall-clock date X and no explicit date argument. -/
theorem logHabitCompletion_streaks (d : Nat) (h : Habit) :
    (h.lastCompleted = some d → logHabitCompletion d none h = h) ∧
    (1 ≤ d → h.lastCompleted = some (d - 1) →
      (logHabitCompletion d none h).currentStreak = h.currentStreak + 1 ∧
      (logHabitCompletion d none h).longestStreak =
        max h.longestStreak (h.currentStreak + 1)) ∧
    (∀ L, h.lastCompleted = some L → L ≠ d → L ≠ d - 1 →
      (logHabitCompletion d none h).currentStreak = 1 ∧
      (logHabitCompletion d none h).longestStreak = h.longestStreak) ∧
    (h.lastCompleted = none →
      (logHabitCompletion d none h).currentStreak = 1 ∧
      (logHabitCompletion d none h).longestStreak = 1) ∧
    (h.lastCompleted = none →
      (logHabitCompletion (d + 2) none (logHabitCompletion (d + 1) none
        (logHabitCompletion d none h))).currentStreak = 3) ∧
    (h.lastCompleted = none →
      (logHabitCompletion (d + 3) none
        (logHabitCompletion d none h)).currentStreak = 1) := by
  have e1 : h.lastCompleted = none → logHabitCompletion d none h =
      { h with currentStreak := 1, longestStreak := 1, lastCompleted := some d,
               completionHistory := h.completionHistory ++ [d] } := by
    intro hl
    unfold logHabitCompletion
    rw [hl]
    rfl
  refine ⟨?_, ?_, ?_, ?_, ?_, ?_⟩
  · intro hl
    unfold logHabitCompletion
    rw [hl]
    simp
  · intro hd hl
    have hne : ¬ (d - 1 = d) := by omega
    unfold logHabitCompletion
    rw [hl]
    simp [hne]
  · intro L hl hne1 hne2
    unfold logHabitCompletion
    rw [hl]
    simp [hne1, hne2]
  · intro hl
    rw [e1 hl]
    exact ⟨rfl, rfl⟩
  · intro hl
    have e2 : logHabitCompletion (d + 1) none
        { h with currentStreak := 1, longestStreak := 1, lastCompleted := some d,
                 completionHistory := h.completionHistory ++ [d] } =
        { h with currentStreak := 2, longestStreak := max 1 2,
                 lastCompleted := some (d + 1),
                 completionHistory := (h.completionHistory ++ [d]) ++ [d + 1] } := by
      unfold logHabitCompletion
      simp [(by omega : ¬ d = d + 1), (by omega : d + 1 - 1 = d)]
    have e3 : logHabitCompletion (d + 2) none
        { h with currentStreak := 2, longestStreak := max 1 2,
                 lastCompleted := some (d + 1),
                 completionHistory := (h.completionHistory ++ [d]) ++ [d + 1] } =
        { h with currentStreak := 3, longestStreak := max (max 1 2) 3,
                 lastCompleted := some (d + 2),
                 completionHistory :=
                   ((h.completionHistory ++ [d]) ++ [d + 1]) ++ [d + 2] } := by
      unfold logHabitCompletion
      simp [(by omega : ¬ d + 1 = d + 2), (by omega : d + 2 - 1 = d + 1)]
    rw [e1 hl, e2, e3]
  · intro hl
    rw [e1 hl]
    unfold logHabitCompletion
    simp [(by omega : ¬ d = d + 3), (by omega : ¬ d = d + 3 - 1)]


/-- Witness for C5: same-day relog is a no-op; a yesterday-continuation
reaches 3; three consecutive days from a fresh habit reach 3; a 3-day gap
resets to 1. -/
theorem logHabitCompletion_streaks_witness :
    logHabitCompletion 10 none ⟨1, 2, 2, some 10, [9, 10]⟩ =
      ⟨1, 2, 2, some 10, [9, 10]⟩ ∧
    (logHabitCompletion 10 none ⟨1, 2, 2, some 9, [9]⟩).currentStreak = 3 ∧
    (logHabitCompletion 12 none (logHabitCompletion 11 none
      (logHabitCompletion 10 none ⟨1, 0, 0, none, []⟩))).currentStreak = 3 ∧
    (logHabitCompletion 13 none (logHabitCompletion 10 none
      ⟨1, 0, 0, none, []⟩)).currentStreak = 1 :=
  ⟨(logHabitCompletion_streaks 10 ⟨1, 2, 2, some 10, [9, 10]⟩).1 rfl,
   ((logHabitCompletion_streaks 10 ⟨1, 2, 2, some 9, [9]⟩).2.1 (by decide) rfl).1,
   (logHabitCompletion_streaks 10 ⟨1, 0, 0, none, []⟩).2.2.2.2.1 rfl,
   (logHabitCompletion_streaks 10 ⟨1, 0, 0, none, []⟩).2.2.2.2.2 rfl⟩


/-- C6 counterexample: a payload carrying `data` and `version` but an
`app` naming a different application is accepted by `db.importData` (the
path `restoreFromCloud` uses), refuting "accepted only if the `app` field
matches"; only the file-restore guard `validateBackup` rejects it. -/
theorem importData_accepts_foreign_app :
    importData mismatchedBackup emptyAppData = Except.ok emptyAppData ∧
    mismatchedBackup.app ≠ some "DailyTrack" ∧
    validateBackup (some mismatchedBackup) = false :=
  ⟨rfl, by decide, by decide⟩


/-- C6 amended: `db.importData` accepts a payload iff `data` and `version`
are present (the `app` field is not checked on this path; `validateBackup`
— used only by the file-restore flow — additionally requires `app` to
equal `DailyTrack`); rejection happens before any collection is
cleared, and the result of an accepted import is independent of the prior
store contents: a destructive full replace, not a merge. -/
theorem importData_validation (b : Backup) (d d1 : AppData) :
    (b.data = none ∨ b.version = none →
      importData b d = Except.error ("Invalid backup data", d)) ∧
    (b.data.isSome → b.version.isSome → importData b d = importData b d1) ∧
    (validateBackup (some b) = true ↔
      b.data.isSome ∧ b.version.isSome ∧ b.app = some "DailyTrack") := by
  refine ⟨?_, ?_, ?_⟩
  · intro hcase
    cases hd : b.data with
    | none =>
      unfold importData
      rw [hd]
    | some bd =>
      cases hv : b.version with
      | none =>
        unfold importData
        rw [hd, hv]
      | some v =>
        exfalso
        rcases hcase with h1 | h1
        · rw [hd] at h1
          cases h1
        · rw [hv] at h1
          cases h1
  · intro h1 h2
    rw [Option.isSome_iff_exists] at h1 h2
    obtain ⟨bd, hd⟩ := h1
    obtain ⟨v, hv⟩ := h2
    unfold importData
    rw [hd, hv]
  · unfold validateBackup
    cases hd : b.data <;> cases hv : b.version <;> simp [hd, hv]


/-- Witness for C6 amended: a payload missing `data` is rejected with the
store untouched; a payload with `data` and `version` produces the same
result whatever the prior store held; an exported backup passes
`validateBackup`. -/
theorem importData_validation_witness :
    importData { data := none, exportedAt := 0, version := some "2.0",
                 app := some "DailyTrack" } emptyAppData =
      Except.error ("Invalid backup data", emptyAppData) ∧
    importData mismatchedBackup emptyAppData =
      importData mismatchedBackup ⟨[⟨1, 1, "x"⟩], [], [], [], [], []⟩ ∧
    validateBackup (some (exportData emptyAppData 0)) = true :=
  ⟨(importData_validation
      { data := none, exportedAt := 0, version := some "2.0",
        app := some "DailyTrack" } emptyAppData emptyAppData).1 (Or.inl rfl),
   (importData_validation mismatchedBackup emptyAppData
      ⟨[⟨1, 1, "x"⟩], [], [], [], [], []⟩).2.1 (by decide) (by decide),
   (importData_validation (exportData emptyAppData 0) emptyAppData
      emptyAppData).2.2.mpr ⟨by decide, by decide, by decide⟩⟩


-- Helper lemmas for C7

theorem storeIds_replace (s : List Record) (r : Record) :
    storeIds (s.map (fun x => if x.id = r.id then r else x)) = storeIds s := by
  induction s with
  | nil => rfl
  | cons x xs ih =>
    simp only [storeIds, List.map_cons] at ih ⊢
    by_cases hx : x.id = r.id
    · rw [if_pos hx, ih, hx]
    · rw [if_neg hx, ih]


theorem idsNodup_append_absent {s : List Record} {r : Record}
    (h : idsNodup s) (hp : ¬ (getRecord s r.id).isSome = true) :
    idsNodup (s ++ [r]) := by
  unfold idsNodup storeIds at h ⊢
  rw [List.map_append, List.nodup_append]
  refine ⟨h, List.nodup_singleton _, ?_⟩
  intro a ha hb
  simp only [List.map_cons, List.map_nil, List.mem_singleton] at hb
  subst hb
  exact hp ((getRecord_isSome_iff s r.id).mpr ha)


theorem idsNodup_putRecord (s : List Record) (r : Record) (h : idsNodup s) :
    idsNodup (putRecord s r) := by
  unfold putRecord
  by_cases hp : (getRecord s r.id).isSome
  · rw [if_pos hp]
    unfold idsNodup
    rw [storeIds_replace]
    exact h
  · rw [if_neg hp]
    exact idsNodup_append_absent h hp


/-- C7: within an entity type, ids are unique — `add` of an existing id
fails with a duplicate-key error, and the write primitives preserve
key-uniqueness — and no modelled write path stores an `updatedAt` older
than the previously stored value for that id: the pull path
(`applyRemoteUpdates`, even when a request throws partway) never lowers a
stored stamp, and the app-layer edit path stamps the current time, which
is no older than the stored stamp whenever the clock has not gone
backwards. -/
theorem id_unique_and_updatedAt_monotone :
    (∀ (s : List Record) (r : Record), (getRecord s r.id).isSome →
      addRecord s r = Except.error "DuplicateKey") ∧
    (∀ (s : List Record) (r : Record), idsNodup s → idsNodup (putRecord s r)) ∧
    (∀ (s t : List Record) (r : Record), idsNodup s →
      addRecord s r = Except.ok t → idsNodup t) ∧
    (∀ (dbFail : Record → Bool) (s us : List Record),
      recMono s (applyOut (applyRemoteUpdates dbFail s us))) ∧
    (∀ (s : List Record) (t old : Record) (now : Nat),
      getRecord s t.id = some old → old.updatedAt ≤ now →
      ∃ r1, getRecord (saveTaskWrite s t now) t.id = some r1 ∧
        old.updatedAt ≤ r1.updatedAt) := by
  refine ⟨?_, ?_, ?_, ?_, ?_⟩
  · intro s r hs
    exact addRecord_duplicate hs
  · intro s r h
    exact idsNodup_putRecord s r h
  · intro s t r h hadd
    unfold addRecord at hadd
    by_cases hp : (getRecord s r.id).isSome
    · rw [if_pos hp] at hadd
      cases hadd
    · rw [if_neg hp] at hadd
      injection hadd with ht
      subst ht
      exact idsNodup_append_absent h hp
  · intro dbFail s us
    exact recMono_applyRemoteUpdates dbFail s us
  · intro s t old now hg hle
    exact ⟨{ t with updatedAt := now },
      getRecord_putRecord_self s { t with updatedAt := now }, hle⟩


/-- Witness for C7: duplicate add fails; put and a successful add keep
ids unique; the pull and the timestamped app edit never lower the stored
stamp at a concrete id. -/
theorem id_unique_and_updatedAt_monotone_witness :
    addRecord [⟨1, 5, "a"⟩] ⟨1, 9, "b"⟩ = Except.error "DuplicateKey" ∧
    idsNodup (putRecord [⟨1, 5, "a"⟩] ⟨2, 6, "b"⟩) ∧
    idsNodup [⟨1, 5, "a"⟩, ⟨2, 6, "b"⟩] ∧
    (∃ r1, getRecord (applyOut (applyRemoteUpdates (fun _ => false)
        [⟨1, 5, "a"⟩] [⟨1, 7, "b"⟩])) 1 = some r1 ∧ 5 ≤ r1.updatedAt) ∧
    (∃ r1, getRecord (saveTaskWrite [⟨1, 5, "a"⟩] ⟨1, 5, "edit"⟩ 8) 1 = some r1 ∧
      5 ≤ r1.updatedAt) :=
  ⟨id_unique_and_updatedAt_monotone.1 [⟨1, 5, "a"⟩] ⟨1, 9, "b"⟩ (by decide),
   id_unique_and_updatedAt_monotone.2.1 [⟨1, 5, "a"⟩] ⟨2, 6, "b"⟩ (by decide),
   id_unique_and_updatedAt_monotone.2.2.1 [⟨1, 5, "a"⟩]
     [⟨1, 5, "a"⟩, ⟨2, 6, "b"⟩] ⟨2, 6, "b"⟩ (by decide) rfl,
   id_unique_and_updatedAt_monotone.2.2.2.1 (fun _ => false) [⟨1, 5, "a"⟩]
     [⟨1, 7, "b"⟩] 1 ⟨1, 5, "a"⟩ rfl,
   id_unique_and_updatedAt_monotone.2.2.2.2 [⟨1, 5, "a"⟩] ⟨1, 5, "edit"⟩
     ⟨1, 5, "a"⟩ 8 rfl (by decide)⟩


/-- C9: exporting and then importing the resulting backup into an emptied
store reproduces an identical set of records — same ids and same field
values — for every covered entity type. -/
theorem export_import_roundtrip (d : AppData) (now : Nat)
    (h : appDataNodup d) :
    importData (exportData d now) emptyAppData = Except.ok d := by
  obtain ⟨h1, h2, h3, h4, h5, h6⟩ := h
  simp only [importData, exportData,
    addAllRecords_of_nodup d.tasks [] h1,
    addAllRecords_of_nodup d.expenses [] h2,
    addAllRecords_of_nodup d.habits [] h3,
    addAllRecords_of_nodup d.journal [] h4,
    addAllRecords_of_nodup d.settings [] h5,
    addAllRecords_of_nodup d.analytics [] h6,
    List.nil_append]


/-- Witness for C9: a concrete populated store round-trips. -/
theorem export_import_roundtrip_witness :
    importData (exportData
      ⟨[⟨1, 5, "t1"⟩, ⟨2, 6, "t2"⟩], [⟨1, 3, "e1"⟩], [⟨7, 2, "h1"⟩], [],
       [⟨1, 1, "s"⟩], [⟨4, 9, "a"⟩]⟩ 4) emptyAppData =
      Except.ok ⟨[⟨1, 5, "t1"⟩, ⟨2, 6, "t2"⟩], [⟨1, 3, "e1"⟩], [⟨7, 2, "h1"⟩], [],
       [⟨1, 1, "s"⟩], [⟨4, 9, "a"⟩]⟩ :=
  export_import_roundtrip
    ⟨[⟨1, 5, "t1"⟩, ⟨2, 6, "t2"⟩], [⟨1, 3, "e1"⟩], [⟨7, 2, "h1"⟩], [],
     [⟨1, 1, "s"⟩], [⟨4, 9, "a"⟩]⟩ 4 (by decide)


end DailyTrack
